import Mathlib

/-!
Shallow embedding of the client-side data transformation engine of
src/src/app/page.tsx: pagination of the fetched record list (fetchData),
date-bucketed aggregation for the trend chart (fetchChartData), the
totalPages computation, score banding, the pagination controls, and the
per-pipeline error handling.  Machine reals (the optional score field) are
modelled as rationals, since the code only ever compares scores; JS string
comparison is modelled code-unit-wise on the underlying character lists.
-/

/-- A topic tag value: either a bare string or a labeled object exposing a
name field (type Topic in page.tsx line 43). -/
inductive Topic where
  | str (s : String)
  | named (name : String)
deriving DecidableEq

/-- One record of the collection (type ToolRow in page.tsx lines 45-54).
The optional score is a rational; created_at is kept as the raw string the
endpoint returned, since the code only ever compares and splits it. -/
structure ToolRow where
  id : String
  name : String
  tagline : String
  topics : List Topic
  thumbnail_url : String
  website : String
  created_at : String
  score : Option ℚ
deriving DecidableEq

/-- JS code-unit lexicographic strict comparison of strings, on the
underlying character lists: a shorter string that is a proper prefix of a
longer one compares below it. -/
def strLt : List Char → List Char → Bool
  | [], [] => false
  | [], _ :: _ => true
  | _ :: _, [] => false
  | a :: as, b :: bs => if a < b then true else if b < a then false else strLt as bs

/-- JS string comparison a >= b, which is the negation of a < b under the
total code-unit order. -/
def strGe (a b : String) : Bool := !(strLt a.data b.data)

/-- Whether pat occurs as a contiguous substring of s. -/
def strContains (s pat : String) : Bool :=
  s.data.tails.any fun t => pat.data.isPrefixOf t

/-- The date-only part of a created_at string: everything before the first
T character, as in created_at.split('T')[0] (page.tsx lines 119 and 123). -/
def dateOnly (s : String) : String := ⟨s.data.takeWhile fun c => c ≠ 'T'⟩

/-- JS Array.prototype.slice with nonnegative indices a <= b, as used by the
pagination logic (page.tsx line 94). -/
def sliceJS (data : List ToolRow) (a b : Nat) : List ToolRow :=
  (data.drop a).take (b - a)

/-- Client-side pagination of the fetched list (page.tsx lines 92-94):
from = (page - 1) * rowsPerPage, to = from + rowsPerPage, slice. -/
def paginate (data : List ToolRow) (page rowsPerPage : Nat) : List ToolRow :=
  sliceJS data ((page - 1) * rowsPerPage) ((page - 1) * rowsPerPage + rowsPerPage)

/-- totalPages = Math.ceil(total / rowsPerPage) || 1 (page.tsx line 140),
for a positive rowsPerPage: ceiling division with a floor of 1. -/
def totalPages (total rowsPerPage : Nat) : Nat :=
  if (total + rowsPerPage - 1) / rowsPerPage = 0 then 1
  else (total + rowsPerPage - 1) / rowsPerPage

/-- The pages produced for pageIndex = 1 .. totalPages, in order. -/
def pagesList (data : List ToolRow) (rowsPerPage : Nat) : List (List ToolRow) :=
  (List.range (totalPages data.length rowsPerPage)).map fun k => paginate data (k + 1) rowsPerPage

/-- The filter of fetchChartData (page.tsx line 120): keep records whose
created_at compares >= sinceStr as JS strings.  The sinceStr parameter is
the injected date-only string for today minus the lookback window, which
the code computes from the ambient clock (lines 117-119). -/
def filterSince (data : List ToolRow) (sinceStr : String) : List ToolRow :=
  data.filter fun t => strGe t.created_at sinceStr

/-- One step of building the dateCounts object (page.tsx line 124):
dateCounts[date] = (dateCounts[date] || 0) + 1 on a JS object, modelled as
an insertion-ordered association list. -/
def bump (m : List (String × Nat)) (k : String) : List (String × Nat) :=
  if m.any fun p => p.1 = k then
    m.map fun p => if p.1 = k then (p.1, p.2 + 1) else p
  else m ++ [(k, 1)]

/-- The dateCounts object of fetchChartData (page.tsx lines 121-125): group
the filtered records by the date-only part of created_at and count. -/
def dateCounts (data : List ToolRow) : List (String × Nat) :=
  data.foldl (fun m t => bump m (dateOnly t.created_at)) []

/-- The ascending-by-date-key order used to sort the chart entries
(page.tsx line 127): entry p precedes entry q when the date key of p
compares <= the date key of q.  The comparator a.localeCompare(b) agrees
with the code-unit order on the digit-and-dash date keys involved. -/
def entryLe (p q : String × Nat) : Prop := strGe q.1 p.1 = true

instance : DecidableRel entryLe := fun p q => by
  unfold entryLe; infer_instance

/-- The chartArr value of fetchChartData (page.tsx lines 126-128): the
entries of dateCounts sorted ascending by date key.  The (date, count)
pairs are kept as pairs.  Since the date keys of dateCounts are pairwise
distinct, every correct sort produces the same list, so insertion sort
models Array.prototype.sort with this comparator exactly. -/
def chartArr (data : List ToolRow) (sinceStr : String) : List (String × Nat) :=
  (dateCounts (filterSince data sinceStr)).insertionSort entryLe

/-- The keys of a date->count association list. -/
def keys (m : List (String × Nat)) : List String := m.map Prod.fst

/-- The sum of the counts of a date->count association list. -/
def countsSum (m : List (String × Nat)) : Nat := (m.map Prod.snd).sum

/-- The score badge displayed for a record (page.tsx lines 269-291):
absent score shows the not-yet-evaluated badge, score >= 8 the great badge,
score >= 6.5 the pretty-good badge, anything lower the meh badge. -/
def scoreBadge : Option ℚ → String
  | none => "Not tried yet"
  | some s => if 8 ≤ s then "Great!" else if (6.5 : ℚ) ≤ s then "Pretty good" else "meh.."

/-- The endpoint both pipelines fetch from (page.tsx lines 88 and 113). -/
def endpoint : String := "/api/similar-tools"

/-- Outcome of one fetch of the collection endpoint, as observed by the
table pipeline: a parsed record list, a non-success HTTP status (res.ok
false), or a thrown exception carrying a message. -/
inductive FetchResult where
  | ok (data : List ToolRow)
  | httpError
  | exn (msg : String)
deriving DecidableEq

/-- Whether a fetch outcome is a failure. -/
def FetchResult.isFailure : FetchResult → Bool
  | .ok _ => false
  | .httpError => true
  | .exn _ => true

/-- The table pipeline state set by fetchData: the current page of records,
the total count, the error message if any, and the loading flag. -/
structure TableState where
  tools : List ToolRow
  total : Nat
  tableError : Option String
  loading : Bool
deriving DecidableEq

/-- The state fetchData leaves behind for a given outcome (page.tsx lines
86-104): on success the paginated slice and the total; on a non-success
status the thrown Error message is the fixed string, and on any caught
exception err.message with a fallback for an empty message; both failure
paths reset tools to [] and total to 0; loading ends false in all cases. -/
def fetchData (page rowsPerPage : Nat) (r : FetchResult) : TableState :=
  match r with
  | .ok data =>
      { tools := paginate data page rowsPerPage, total := data.length,
        tableError := none, loading := false }
  | .httpError =>
      { tools := [], total := 0,
        tableError := some "Failed to fetch tools", loading := false }
  | .exn msg =>
      { tools := [], total := 0,
        tableError := some (if msg = "" then "Error loading tools" else msg), loading := false }

/-- What the table body renders (page.tsx lines 229-304): the branches are
mutually exclusive, tried in the order loading, error, empty, rows. -/
inductive TableView where
  | loadingV
  | errorV (msg : String)
  | emptyV
  | rowsV (rows : List ToolRow)
deriving DecidableEq

/-- The branch selection of the table body (page.tsx lines 229-304). -/
def renderTable (s : TableState) : TableView :=
  if s.loading then .loadingV
  else
    match s.tableError with
    | some m => .errorV m
    | none => if s.tools.length = 0 then .emptyV else .rowsV s.tools

/-- The chart pipeline state set by fetchChartData. -/
structure ChartState where
  chartRange : Nat
  chartData : List (String × Nat)
  chartLoading : Bool
  chartError : Option String
deriving DecidableEq

/-- One completed fetch cycle of the chart pipeline: the response body and
the sinceStr that was computed from the chartRange in effect when the
effect ran (page.tsx lines 108-138). -/
structure ChartCompletion where
  data : List ToolRow
  sinceStr : String

/-- What a completed chart fetch does to the state (page.tsx lines 126-135):
it unconditionally stores its own aggregation result; the code carries no
sequence number or abort signal, so a completion never checks whether a
newer cycle has been issued. -/
def applyChartCompletion (s : ChartState) (c : ChartCompletion) : ChartState :=
  { s with chartData := chartArr c.data c.sinceStr, chartError := none, chartLoading := false }

/-- Replay a list of chart fetch completions in their arrival order on the
single-threaded event loop. -/
def runChartArrivals (s : ChartState) (cs : List ChartCompletion) : ChartState :=
  cs.foldl applyChartCompletion s

/-- The pagination control buttons (page.tsx lines 328-339). -/
inductive PageButton where
  | first
  | prev
  | next
  | last
deriving DecidableEq

/-- The page-index update performed by one button press, where tp is the
totalPages value current at that press (page.tsx lines 328-339):
first sets 1, prev sets max 1 (p - 1), next sets min tp (p + 1), last
sets tp. -/
def pressButton (tp p : Nat) : PageButton → Nat
  | .first => 1
  | .prev => max 1 (p - 1)
  | .next => min tp (p + 1)
  | .last => tp

/-- Replay a sequence of button presses, each paired with the totalPages
value current when it was pressed, starting from page index p. -/
def runPresses (p : Nat) (presses : List (PageButton × Nat)) : Nat :=
  presses.foldl (fun q bt => pressButton bt.2 q bt.1) p

/-- The rows-per-page control state relevant to claim C9. -/
structure TableControls where
  page : Nat
  rowsPerPage : Nat
deriving DecidableEq

/-- The rows-per-page selection handler (page.tsx line 313):
setRowsPerPage(Number(val)); setPage(1) in the same handler, so the next
state has the new page size and page index 1. -/
def onRowsChange (s : TableControls) (v : Nat) : TableControls :=
  { s with rowsPerPage := v, page := 1 }

/-- A minimal concrete record used by witnesses and counterexamples. -/
def mkRow (i c : String) : ToolRow :=
  { id := i, name := "n", tagline := "t", topics := [], thumbnail_url := "",
    website := "", created_at := c, score := none }

lemma strLt_irrefl : ∀ a : List Char, strLt a a = false := by
  intro a
  induction a with
  | nil => rfl
  | cons c cs ih => simp [strLt, ih]

lemma strLt_asymm : ∀ a b : List Char, strLt a b = true → strLt b a = false := by
  intro a
  induction a with
  | nil =>
    intro b h
    cases b with
    | nil => simp [strLt] at h
    | cons y ys => simp [strLt]
  | cons x xs ih =>
    intro b h
    cases b with
    | nil => simp [strLt] at h
    | cons y ys =>
      by_cases hxy : x < y
      · simp [strLt, hxy, asymm hxy]
      · by_cases hyx : y < x
        · simp [strLt, hxy, hyx] at h
        · simp only [strLt, if_neg hxy, if_neg hyx] at h
          simp only [strLt, if_neg hxy, if_neg hyx]
          exact ih ys h

lemma strLt_trans : ∀ a b c : List Char,
    strLt a b = true → strLt b c = true → strLt a c = true := by
  intro a
  induction a with
  | nil =>
    intro b c h1 h2
    cases c with
    | nil =>
      cases b with
      | nil => simp [strLt] at h1
      | cons y ys => simp [strLt] at h2
    | cons z zs => simp [strLt]
  | cons x xs ih =>
    intro b c h1 h2
    cases b with
    | nil => simp [strLt] at h1
    | cons y ys =>
      cases c with
      | nil => simp [strLt] at h2
      | cons z zs =>
        rcases lt_trichotomy x y with hxy | hxy | hxy
        · rcases lt_trichotomy y z with hyz | hyz | hyz
          · have hxz : x < z := lt_trans hxy hyz
            simp [strLt, hxz]
          · subst hyz
            simp [strLt, hxy]
          · simp [strLt, asymm hyz, hyz] at h2
        · subst hxy
          rcases lt_trichotomy x z with hyz | hyz | hyz
          · simp [strLt, hyz]
          · subst hyz
            simp only [strLt, if_neg (lt_irrefl x)] at h1 h2 ⊢
            exact ih ys zs h1 h2
          · simp [strLt, asymm hyz, hyz] at h2
        · simp [strLt, asymm hxy, hxy] at h1

lemma strLt_antisymm : ∀ a b : List Char,
    strLt a b = false → strLt b a = false → a = b := by
  intro a
  induction a with
  | nil =>
    intro b h1 h2
    cases b with
    | nil => rfl
    | cons y ys => simp [strLt] at h1
  | cons x xs ih =>
    intro b h1 h2
    cases b with
    | nil => simp [strLt] at h2
    | cons y ys =>
      by_cases hxy : x < y
      · simp [strLt, hxy] at h1
      · by_cases hyx : y < x
        · simp [strLt, hyx] at h2
        · have hxyeq : x = y := le_antisymm (le_of_not_lt hyx) (le_of_not_lt hxy)
          subst hxyeq
          simp only [strLt, if_neg hxy] at h1 h2
          rw [ih ys h1 h2]

lemma strLt_append_of_strLt : ∀ (pre t since : List Char),
    pre.length = since.length → strLt pre since = true → strLt (pre ++ t) since = true := by
  intro pre
  induction pre with
  | nil =>
    intro t since hlen h
    have : since = [] := (List.length_eq_zero).mp hlen.symm
    subst this
    simp [strLt] at h
  | cons p ps ih =>
    intro t since hlen h
    cases since with
    | nil => simp at hlen
    | cons c cs =>
      by_cases hpc : p < c
      · simp [strLt, hpc]
      · by_cases hcp : c < p
        · simp [strLt, hpc, hcp] at h
        · simp only [strLt, if_neg hpc, if_neg hcp] at h
          simp only [List.cons_append, strLt, if_neg hpc, if_neg hcp]
          exact ih t cs (by simpa using hlen) h

lemma strData_inj {s t : String} (h : s.data = t.data) : s = t := by
  cases s
  cases t
  subst h
  rfl

lemma strGe_eq_true_iff {a b : String} : strGe a b = true ↔ strLt a.data b.data = false := by
  simp [strGe]

instance : IsTrans (String × Nat) entryLe := by
  constructor
  intro a b c hab hbc
  have hba : strLt b.1.data a.1.data = false := strGe_eq_true_iff.mp hab
  have hcb : strLt c.1.data b.1.data = false := strGe_eq_true_iff.mp hbc
  show strGe c.1 a.1 = true
  rw [strGe_eq_true_iff]
  cases hbc2 : strLt b.1.data c.1.data with
  | false =>
    have heq : b.1.data = c.1.data := strLt_antisymm _ _ hbc2 hcb
    rw [heq] at hba
    exact hba
  | true =>
    cases hca : strLt c.1.data a.1.data with
    | false => rfl
    | true => exact absurd (strLt_trans _ _ _ hbc2 hca) (by rw [hba]; simp)

instance : IsTotal (String × Nat) entryLe := by
  constructor
  intro a b
  cases h : strLt b.1.data a.1.data with
  | false => exact Or.inl (strGe_eq_true_iff.mpr h)
  | true => exact Or.inr (strGe_eq_true_iff.mpr (strLt_asymm _ _ h))

lemma mem_keys_iff {m : List (String × Nat)} {k : String} :
    k ∈ keys m ↔ ∃ p ∈ m, p.1 = k := by
  simp [keys, List.mem_map]

lemma keys_map_bumpUpd (m : List (String × Nat)) (k : String) :
    keys (m.map fun p => if p.1 = k then (p.1, p.2 + 1) else p) = keys m := by
  simp only [keys, List.map_map]
  apply List.map_congr_left
  intro p _
  by_cases h : p.1 = k <;> simp [h]

lemma any_key_eq_false {m : List (String × Nat)} {k : String}
    (h : (m.any fun p => p.1 = k) = false) : k ∉ keys m := by
  intro hk
  rcases mem_keys_iff.mp hk with ⟨p, hp, hpk⟩
  have : (m.any fun p => p.1 = k) = true := List.any_eq_true.mpr ⟨p, hp, by simp [hpk]⟩
  rw [this] at h
  cases h

lemma map_bumpUpd_of_not_mem : ∀ (m : List (String × Nat)) (k : String), k ∉ keys m →
    (m.map fun p => if p.1 = k then (p.1, p.2 + 1) else p) = m := by
  intro m
  induction m with
  | nil => intro k _; rfl
  | cons a as ih =>
    intro k hk
    have hak : a.1 ≠ k := by
      intro h
      exact hk (mem_keys_iff.mpr ⟨a, List.mem_cons_self a as, h⟩)
    have hk' : k ∉ keys as := by
      intro h
      exact hk (by simp only [keys, List.map_cons]; exact List.mem_cons_of_mem _ h)
    simp only [List.map_cons, if_neg hak, ih k hk']

lemma countsSum_map_bumpUpd : ∀ (m : List (String × Nat)) (k : String), (keys m).Nodup →
    (m.any fun p => p.1 = k) = true →
    countsSum (m.map fun p => if p.1 = k then (p.1, p.2 + 1) else p) = countsSum m + 1 := by
  intro m
  induction m with
  | nil => intro k _ h; cases h
  | cons a as ih =>
    intro k hn h
    have hn' : a.1 ∉ keys as ∧ (keys as).Nodup := by
      simpa only [keys, List.map_cons, List.nodup_cons] using hn
    by_cases hak : a.1 = k
    · have : (as.map fun p => if p.1 = k then (p.1, p.2 + 1) else p) = as :=
        map_bumpUpd_of_not_mem as k (hak ▸ hn'.1)
      simp only [List.map_cons, if_pos hak, this, countsSum, List.map_cons, List.sum_cons]
      omega
    · have h' : (as.any fun p => p.1 = k) = true := by
        rcases List.any_eq_true.mp h with ⟨p, hp, hpk⟩
        rcases List.mem_cons.mp hp with rfl | hp'
        · exact absurd (of_decide_eq_true hpk) hak
        · exact List.any_eq_true.mpr ⟨p, hp', hpk⟩
      simp only [List.map_cons, if_neg hak, countsSum, List.sum_cons]
      have := ih k hn'.2 h'
      simp only [countsSum] at this
      omega

lemma bump_countsSum (m : List (String × Nat)) (k : String) (hn : (keys m).Nodup) :
    countsSum (bump m k) = countsSum m + 1 := by
  unfold bump
  by_cases h : (m.any fun p => p.1 = k) = true
  · rw [if_pos h]
    exact countsSum_map_bumpUpd m k hn h
  · rw [if_neg h]
    simp [countsSum, List.map_append, List.sum_append]

lemma bump_keys_nodup (m : List (String × Nat)) (k : String) (hn : (keys m).Nodup) :
    (keys (bump m k)).Nodup := by
  unfold bump
  by_cases h : (m.any fun p => p.1 = k) = true
  · rw [if_pos h, keys_map_bumpUpd]
    exact hn
  · rw [if_neg h]
    have hk : k ∉ keys m := any_key_eq_false (Bool.eq_false_iff.mpr h)
    have : keys (m ++ [(k, 1)]) = keys m ++ [k] := by simp [keys]
    rw [this, List.nodup_append]
    refine ⟨hn, List.nodup_singleton k, ?h⟩
    intro a ha hb
    rcases List.mem_singleton.mp hb with rfl
    exact hk ha

lemma bump_counts_pos (m : List (String × Nat)) (k : String)
    (h : ∀ p ∈ m, 1 ≤ p.2) : ∀ p ∈ bump m k, 1 ≤ p.2 := by
  unfold bump
  by_cases hc : (m.any fun p => p.1 = k) = true
  · rw [if_pos hc]
    intro p hp
    rcases List.mem_map.mp hp with ⟨q, hq, rfl⟩
    by_cases hqk : q.1 = k
    · simp only [if_pos hqk]
      omega
    · simp only [if_neg hqk]
      exact h q hq
  · rw [if_neg hc]
    intro p hp
    rcases List.mem_append.mp hp with hp' | hp'
    · exact h p hp'
    · rcases List.mem_singleton.mp hp' with rfl
      exact le_refl 1

lemma bump_keys_mem {m : List (String × Nat)} {k a : String}
    (h : a ∈ keys (bump m k)) : a ∈ keys m ∨ a = k := by
  unfold bump at h
  by_cases hc : (m.any fun p => p.1 = k) = true
  · rw [if_pos hc, keys_map_bumpUpd] at h
    exact Or.inl h
  · rw [if_neg hc] at h
    have : keys (m ++ [(k, 1)]) = keys m ++ [k] := by simp [keys]
    rw [this] at h
    rcases List.mem_append.mp h with h' | h'
    · exact Or.inl h'
    · exact Or.inr (List.mem_singleton.mp h')

lemma foldl_bump_nodup : ∀ (l : List ToolRow) (m : List (String × Nat)), (keys m).Nodup →
    (keys (l.foldl (fun m t => bump m (dateOnly t.created_at)) m)).Nodup := by
  intro l
  induction l with
  | nil => intro m hm; exact hm
  | cons x xs ih =>
    intro m hm
    exact ih _ (bump_keys_nodup m _ hm)

lemma foldl_bump_sum : ∀ (l : List ToolRow) (m : List (String × Nat)), (keys m).Nodup →
    countsSum (l.foldl (fun m t => bump m (dateOnly t.created_at)) m) = countsSum m + l.length := by
  intro l
  induction l with
  | nil => intro m _; rfl
  | cons x xs ih =>
    intro m hm
    have h1 := ih (bump m (dateOnly x.created_at)) (bump_keys_nodup m _ hm)
    have h2 := bump_countsSum m (dateOnly x.created_at) hm
    simp only [List.foldl_cons, h1, h2, List.length_cons]
    omega

lemma foldl_bump_pos : ∀ (l : List ToolRow) (m : List (String × Nat)), (∀ p ∈ m, 1 ≤ p.2) →
    ∀ p ∈ l.foldl (fun m t => bump m (dateOnly t.created_at)) m, 1 ≤ p.2 := by
  intro l
  induction l with
  | nil => intro m hm; exact hm
  | cons x xs ih =>
    intro m hm
    exact ih _ (bump_counts_pos m _ hm)

lemma foldl_bump_keys : ∀ (l : List ToolRow) (m : List (String × Nat)) (a : String),
    a ∈ keys (l.foldl (fun m t => bump m (dateOnly t.created_at)) m) →
    a ∈ keys m ∨ ∃ t ∈ l, a = dateOnly t.created_at := by
  intro l
  induction l with
  | nil => intro m a h; exact Or.inl h
  | cons x xs ih =>
    intro m a h
    rcases ih _ a h with h' | ⟨t, ht, he⟩
    · rcases bump_keys_mem h' with h'' | h''
      · exact Or.inl h''
      · exact Or.inr ⟨x, List.mem_cons_self x xs, h''⟩
    · exact Or.inr ⟨t, List.mem_cons_of_mem x ht, he⟩

lemma dateCounts_keys_nodup (l : List ToolRow) : (keys (dateCounts l)).Nodup :=
  foldl_bump_nodup l [] (by simp [keys])

lemma dateCounts_sum (l : List ToolRow) : countsSum (dateCounts l) = l.length := by
  have := foldl_bump_sum l [] (by simp [keys])
  simpa [countsSum, dateCounts] using this

lemma dateCounts_pos (l : List ToolRow) : ∀ p ∈ dateCounts l, 1 ≤ p.2 :=
  foldl_bump_pos l [] (by simp)

lemma dateCounts_keys (l : List ToolRow) (a : String) (h : a ∈ keys (dateCounts l)) :
    ∃ t ∈ l, a = dateOnly t.created_at := by
  rcases foldl_bump_keys l [] a h with h' | h'
  · simp [keys] at h'
  · exact h'

lemma chartArr_perm (data : List ToolRow) (sinceStr : String) :
    (chartArr data sinceStr).Perm (dateCounts (filterSince data sinceStr)) :=
  List.perm_insertionSort entryLe _

lemma chartArr_keys_nodup (data : List ToolRow) (sinceStr : String) :
    (keys (chartArr data sinceStr)).Nodup := by
  have hp : (keys (dateCounts (filterSince data sinceStr))).Perm (keys (chartArr data sinceStr)) :=
    ((chartArr_perm data sinceStr).map Prod.fst).symm
  exact hp.nodup (dateCounts_keys_nodup _)

lemma chartArr_sum (data : List ToolRow) (sinceStr : String) :
    countsSum (chartArr data sinceStr) = (filterSince data sinceStr).length := by
  have h1 : countsSum (chartArr data sinceStr)
      = countsSum (dateCounts (filterSince data sinceStr)) :=
    ((chartArr_perm data sinceStr).map Prod.snd).sum_eq
  rw [h1, dateCounts_sum]

lemma one_le_totalPages (total rowsPerPage : Nat) : 1 ≤ totalPages total rowsPerPage := by
  unfold totalPages
  by_cases h : (total + rowsPerPage - 1) / rowsPerPage = 0
  · rw [if_pos h]
  · rw [if_neg h]
    exact Nat.pos_of_ne_zero h

lemma pred_div_self_eq_zero (ps : Nat) : (ps - 1) / ps = 0 := by
  cases ps with
  | zero => rfl
  | succ n => exact Nat.div_eq_of_lt (by omega)

lemma ceil_div_succ (m ps : Nat) (hm : 0 < m) (hps : 0 < ps) :
    (m + ps - 1) / ps = (m - ps + ps - 1) / ps + 1 := by
  have h1 : m + ps - 1 = (m - 1) + ps := by omega
  rw [h1, Nat.add_div_right _ hps]
  by_cases hm2 : ps < m
  · have h2 : m - ps + ps - 1 = m - 1 := by omega
    rw [h2]
  · have e1 : m - 1 < ps := by omega
    have e2 : m - ps + ps - 1 < ps := by omega
    rw [Nat.div_eq_of_lt e1, Nat.div_eq_of_lt e2]

lemma paginate_succ_eq (data : List ToolRow) (k ps : Nat) :
    paginate data (k + 1) ps = (data.drop (k * ps)).take ps := by
  simp [paginate, sliceJS, Nat.add_sub_cancel, Nat.add_sub_cancel_left]

lemma flatten_chunks : ∀ (n : Nat) (l : List ToolRow) (ps : Nat), 0 < ps → l.length ≤ n →
    ((List.range ((l.length + ps - 1) / ps)).map fun k => (l.drop (k * ps)).take ps).flatten = l := by
  intro n
  induction n with
  | zero =>
    intro l ps hps hl
    have hnil : l = [] := List.length_eq_zero.mp (Nat.le_zero.mp hl)
    subst hnil
    simp [pred_div_self_eq_zero]
  | succ n ih =>
    intro l ps hps hl
    rcases eq_or_ne l [] with rfl | hne
    · simp [pred_div_self_eq_zero]
    · have hlen : 0 < l.length := List.length_pos.mpr hne
      rw [ceil_div_succ l.length ps hlen hps, List.range_succ_eq_map]
      simp only [List.map_cons, List.flatten_cons, Nat.zero_mul, List.drop_zero, List.map_map]
      have hcong : (List.range ((l.length - ps + ps - 1) / ps)).map
            ((fun k => (l.drop (k * ps)).take ps) ∘ Nat.succ)
          = (List.range (((l.drop ps).length + ps - 1) / ps)).map
            (fun k => ((l.drop ps).drop (k * ps)).take ps) := by
        rw [List.length_drop]
        apply List.map_congr_left
        intro k _
        have h1 : (l.drop ps).drop (k * ps) = l.drop (ps + k * ps) := List.drop_drop (k * ps) ps l
        have h2 : Nat.succ k * ps = ps + k * ps := by
          rw [Nat.succ_mul]
          omega
        simp only [Function.comp, h1, h2]
      rw [hcong, ih (l.drop ps) ps hps (by rw [List.length_drop]; omega)]
      exact List.take_append_drop ps l

/-- Claim C1: for every record list and every pageSize > 0, concatenating
the page slices for pageIndex = 1 .. totalPages reproduces the record list
exactly, no page has more than pageSize records, and every page except
possibly the last has exactly pageSize records. -/
theorem pagination_totality (data : List ToolRow) (pageSize : Nat) (h : 0 < pageSize) :
    (pagesList data pageSize).flatten = data
    ∧ (∀ p ∈ pagesList data pageSize, p.length ≤ pageSize)
    ∧ (∀ p ∈ (pagesList data pageSize).dropLast, p.length = pageSize) := by
  refine ⟨?flat, ?le, ?full⟩
  case flat =>
    rcases eq_or_ne data [] with rfl | hne
    · unfold pagesList
      have h0 : totalPages ([] : List ToolRow).length pageSize = 1 := by
        simp [totalPages, pred_div_self_eq_zero]
      rw [h0]
      simp [List.range_succ, paginate, sliceJS]
    · have hlen : 0 < data.length := List.length_pos.mpr hne
      have htp : totalPages data.length pageSize = (data.length + pageSize - 1) / pageSize := by
        have hp1 : 1 ≤ (data.length + pageSize - 1) / pageSize := by
          rw [Nat.le_div_iff_mul_le h]
          omega
        unfold totalPages
        rw [if_neg (by omega)]
      unfold pagesList
      rw [htp, List.map_congr_left fun k _ => paginate_succ_eq data k pageSize]
      exact flatten_chunks data.length data pageSize h le_rfl
  case le =>
    intro p hp
    rcases List.mem_map.mp hp with ⟨k, _, rfl⟩
    rw [paginate_succ_eq, List.length_take]
    exact min_le_left _ _
  case full =>
    intro p hp
    unfold pagesList at hp
    obtain ⟨c', hc'⟩ : ∃ c', totalPages data.length pageSize = c' + 1 := by
      have h1 := one_le_totalPages data.length pageSize
      exact ⟨totalPages data.length pageSize - 1, by omega⟩
    rw [hc', List.range_succ, List.map_append, List.map_singleton,
      List.dropLast_concat] at hp
    rcases List.mem_map.mp hp with ⟨k, hk, rfl⟩
    have hk' : k < c' := List.mem_range.mp hk
    rcases eq_or_ne data [] with rfl | hne
    · exfalso
      have h0 : totalPages ([] : List ToolRow).length pageSize = 1 := by
        simp [totalPages, pred_div_self_eq_zero]
      rw [h0] at hc'
      omega
    · have hlen : 0 < data.length := List.length_pos.mpr hne
      have htp : totalPages data.length pageSize = (data.length + pageSize - 1) / pageSize := by
        have hp1 : 1 ≤ (data.length + pageSize - 1) / pageSize := by
          rw [Nat.le_div_iff_mul_le h]
          omega
        unfold totalPages
        rw [if_neg (by omega)]
      rw [htp] at hc'
      have hk2 : k + 2 ≤ (data.length + pageSize - 1) / pageSize := by omega
      have hmul : (k + 2) * pageSize ≤ data.length + pageSize - 1 :=
        (Nat.le_div_iff_mul_le h).mp hk2
      have hexp : (k + 2) * pageSize = k * pageSize + 2 * pageSize := by ring
      rw [paginate_succ_eq, List.length_take, List.length_drop]
      have hge : pageSize ≤ data.length - k * pageSize := by
        rw [hexp] at hmul
        omega
      exact min_eq_left hge

/-- Claim C1 witness: four records at pageSize 3 split into pages of
lengths 3 and 1 whose concatenation is the original list. -/
theorem pagination_totality_witness :
    0 < 3
    ∧ ((pagesList [mkRow "1" "", mkRow "2" "", mkRow "3" "", mkRow "4" ""] 3).flatten
          = [mkRow "1" "", mkRow "2" "", mkRow "3" "", mkRow "4" ""]
      ∧ (∀ p ∈ pagesList [mkRow "1" "", mkRow "2" "", mkRow "3" "", mkRow "4" ""] 3,
          p.length ≤ 3)
      ∧ (∀ p ∈ (pagesList [mkRow "1" "", mkRow "2" "", mkRow "3" "", mkRow "4" ""] 3).dropLast,
          p.length = 3)) :=
  ⟨by decide, pagination_totality _ 3 (by decide)⟩

/-- Claim C2 (amended): for every record list whose created_at values have
a fixed-width 10-character date-only part and every injected 10-character
sinceStr (the date-only string for today minus lookbackDays), every date
key of the aggregated series compares >= sinceStr.  The upper bound of the
original claim (key <= today) does not hold, see the counterexample. -/
theorem chart_keys_ge_since (data : List ToolRow) (sinceStr : String)
    (hs : sinceStr.length = 10)
    (hd : ∀ t ∈ data, (dateOnly t.created_at).length = 10) :
    ∀ p ∈ chartArr data sinceStr, strGe p.1 sinceStr = true := by
  intro p hp
  have hp' : p ∈ dateCounts (filterSince data sinceStr) :=
    ((chartArr_perm data sinceStr).mem_iff).mp hp
  have hkey : p.1 ∈ keys (dateCounts (filterSince data sinceStr)) :=
    List.mem_map_of_mem Prod.fst hp'
  rcases dateCounts_keys _ _ hkey with ⟨t, ht, heq⟩
  rcases List.mem_filter.mp ht with ⟨htd, hge⟩
  rw [heq, strGe_eq_true_iff]
  cases hlt : strLt (dateOnly t.created_at).data sinceStr.data with
  | false => rfl
  | true =>
    exfalso
    have hpre : (dateOnly t.created_at).data <+: t.created_at.data :=
      List.takeWhile_prefix _
    obtain ⟨rest, happ⟩ := hpre
    have hlen : (dateOnly t.created_at).data.length = sinceStr.data.length := by
      have h1 : (dateOnly t.created_at).length = 10 := hd t htd
      have h2 : sinceStr.length = 10 := hs
      simp only [String.length] at h1 h2
      omega
    have hall := strLt_append_of_strLt (dateOnly t.created_at).data rest sinceStr.data hlen hlt
    rw [happ] at hall
    have hf : strLt t.created_at.data sinceStr.data = false := strGe_eq_true_iff.mp hge
    rw [hf] at hall
    exact Bool.false_ne_true hall

/-- Claim C2 witness: two records, one inside and one before the window,
aggregated against sinceStr = 2024-01-03; every key of the result compares
at or above sinceStr. -/
theorem chart_keys_ge_since_witness :
    ("2024-01-03" : String).length = 10
    ∧ (∀ t ∈ [mkRow "a" "2024-01-05T10:00:00Z", mkRow "b" "2023-12-01T00:00:00Z"],
        (dateOnly t.created_at).length = 10)
    ∧ (∀ p ∈ chartArr [mkRow "a" "2024-01-05T10:00:00Z", mkRow "b" "2023-12-01T00:00:00Z"]
        "2024-01-03", strGe p.1 "2024-01-03" = true) :=
  ⟨by decide, by decide, chart_keys_ge_since _ _ (by decide) (by decide)⟩

/-- Claim C2 counterexample: with today = 2024-01-10 and lookbackDays = 7
(so sinceStr = 2024-01-03), a record dated 2099-01-01 passes the filter of
fetchChartData, which has no upper bound, and produces the bucket key
2099-01-01; that key is not <= today, refuting the stated upper bound. -/
theorem chart_keys_ge_since_cex :
    chartArr [mkRow "d" "2099-01-01T00:00:00Z"] "2024-01-03" = [("2099-01-01", 1)]
    ∧ strGe "2024-01-10" "2099-01-01" = false := by
  constructor
  · decide
  · decide

/-- Claim C3 (amended): for every record list and injected sinceStr, the
sum of all bucket counts of the aggregated series equals the number of
records whose created_at compares >= sinceStr; records after today are
included since the filter has no upper bound, see the counterexample. -/
theorem chart_counts_complete (data : List ToolRow) (sinceStr : String) :
    countsSum (chartArr data sinceStr) = (filterSince data sinceStr).length :=
  chartArr_sum data sinceStr

/-- Claim C3 counterexample: with today = 2024-01-10 and sinceStr =
2024-01-03, a single record dated 2099-01-01 gives bucket sum 1, while the
number of records whose date-only created_at lies in the closed window
from sinceStr to today is 0. -/
theorem chart_counts_complete_cex :
    countsSum (chartArr [mkRow "d" "2099-01-01T00:00:00Z"] "2024-01-03") = 1
    ∧ ([mkRow "d" "2099-01-01T00:00:00Z"].filter fun t =>
        strGe (dateOnly t.created_at) "2024-01-03"
          && strGe "2024-01-10" (dateOnly t.created_at)).length = 0 := by
  constructor
  · decide
  · decide

/-- Claim C4: for every record list and injected sinceStr, the aggregated
series is strictly ascending by date key (hence keys are pairwise
distinct) and every bucket count is at least 1, so days with no qualifying
record never appear. -/
theorem chart_buckets_sorted (data : List ToolRow) (sinceStr : String) :
    List.Pairwise (fun p q : String × Nat => strLt p.1.data q.1.data = true)
      (chartArr data sinceStr)
    ∧ ∀ p ∈ chartArr data sinceStr, 1 ≤ p.2 := by
  constructor
  · have hs : List.Pairwise entryLe (chartArr data sinceStr) :=
      List.sorted_insertionSort entryLe (dateCounts (filterSince data sinceStr))
    have hne : List.Pairwise (fun p q : String × Nat => p.1 ≠ q.1) (chartArr data sinceStr) :=
      List.pairwise_map.mp (chartArr_keys_nodup data sinceStr)
    refine (hs.and hne).imp ?f
    intro a b hab
    rcases hab with ⟨h1, h2⟩
    have h1' : strLt b.1.data a.1.data = false := strGe_eq_true_iff.mp h1
    cases hc : strLt a.1.data b.1.data with
    | true => rfl
    | false => exact absurd (strData_inj (strLt_antisymm _ _ hc h1')) h2
  · intro p hp
    exact dateCounts_pos _ p (((chartArr_perm data sinceStr).mem_iff).mp hp)

/-- Claim C5: the score banding rule maps an absent score to the
not-yet-evaluated badge, score >= 8 to the great badge, 6.5 <= score < 8
to the pretty-good badge and score < 6.5 to the meh badge, with 8 and 6.5
inclusive lower bounds of their tiers, checked at the boundary values 8,
7.999, 6.5 and 6.49. -/
theorem score_banding :
    scoreBadge none = "Not tried yet"
    ∧ (∀ s : ℚ, 8 ≤ s → scoreBadge (some s) = "Great!")
    ∧ (∀ s : ℚ, (6.5 : ℚ) ≤ s → s < 8 → scoreBadge (some s) = "Pretty good")
    ∧ (∀ s : ℚ, s < (6.5 : ℚ) → scoreBadge (some s) = "meh..")
    ∧ scoreBadge (some 8) = "Great!"
    ∧ scoreBadge (some 7.999) = "Pretty good"
    ∧ scoreBadge (some 6.5) = "Pretty good"
    ∧ scoreBadge (some 6.49) = "meh.." := by
  have hg : ∀ s : ℚ, 8 ≤ s → scoreBadge (some s) = "Great!" := by
    intro s hs
    simp [scoreBadge, hs]
  have hp : ∀ s : ℚ, (6.5 : ℚ) ≤ s → s < 8 → scoreBadge (some s) = "Pretty good" := by
    intro s h1 h2
    have hn : ¬ (8 : ℚ) ≤ s := not_le.mpr h2
    simp [scoreBadge, hn, h1]
  have hm : ∀ s : ℚ, s < (6.5 : ℚ) → scoreBadge (some s) = "meh.." := by
    intro s h1
    have hn1 : ¬ (8 : ℚ) ≤ s := by
      intro hc
      nlinarith
    have hn2 : ¬ (6.5 : ℚ) ≤ s := not_le.mpr h1
    simp [scoreBadge, hn1, hn2]
  refine ⟨rfl, hg, hp, hm, hg 8 le_rfl, hp 7.999 (by norm_num) (by norm_num),
    hp 6.5 le_rfl (by norm_num), hm 6.49 (by norm_num)⟩

/-- Claim C5 witness: the banding rule applied at the concrete score 9. -/
theorem score_banding_witness :
    (8 : ℚ) ≤ 9 ∧ scoreBadge (some 9) = "Great!" :=
  ⟨by norm_num, score_banding.2.1 9 (by norm_num)⟩

/-- Claim C6 (amended): the chart pipeline is last-write-wins: after any
sequence of completed fetch cycles, the displayed chart state is the
aggregation of whichever response arrived last, regardless of which
request was issued last; the code has no stale-response guard, see the
counterexample. -/
theorem chart_last_arrival_wins (s : ChartState) (cs : List ChartCompletion)
    (c : ChartCompletion) :
    (runChartArrivals s (cs ++ [c])).chartData = chartArr c.data c.sinceStr := by
  unfold runChartArrivals
  rw [List.foldl_append]
  rfl

/-- Claim C6 counterexample: the cycle for range 7 (sinceStr 2024-01-03)
completes first and the stale cycle for range 90 (sinceStr 2023-10-13)
arrives after it; the displayed chart data is the stale 90-day aggregation
of the record dated 2024-01-01, not the empty 7-day result the claim
requires. -/
theorem chart_last_arrival_wins_cex :
    (runChartArrivals
      { chartRange := 7, chartData := [], chartLoading := true, chartError := none }
      [{ data := [mkRow "a" "2024-01-01T12:00:00Z"], sinceStr := "2024-01-03" },
       { data := [mkRow "a" "2024-01-01T12:00:00Z"], sinceStr := "2023-10-13" }]).chartData
      = [("2024-01-01", 1)]
    ∧ chartArr [mkRow "a" "2024-01-01T12:00:00Z"] "2024-01-03" = [] := by
  constructor
  · decide
  · decide

/-- Claim C7: totalPages is at least 1 for every total and positive
pageSize; the empty collection yields the page view with no records and
total 0 on every page, totalPages 1, and an empty time series for every
window. -/
theorem pagination_floor (total rowsPerPage : Nat) (_h : 0 < rowsPerPage) :
    1 ≤ totalPages total rowsPerPage
    ∧ totalPages 0 rowsPerPage = 1
    ∧ (∀ page, fetchData page rowsPerPage (.ok []) =
        { tools := [], total := 0, tableError := none, loading := false })
    ∧ (∀ sinceStr, chartArr [] sinceStr = []) := by
  refine ⟨one_le_totalPages _ _, ?e1, ?e2, ?e3⟩
  · simp [totalPages, pred_div_self_eq_zero]
  · intro page
    simp [fetchData, paginate, sliceJS]
  · intro sinceStr
    rfl

/-- Claim C7 witness: the floor and the empty-collection scenario at
pageSize 10. -/
theorem pagination_floor_witness :
    0 < 10
    ∧ (1 ≤ totalPages 0 10
      ∧ totalPages 0 10 = 1
      ∧ (∀ page, fetchData page 10 (.ok []) =
          { tools := [], total := 0, tableError := none, loading := false })
      ∧ (∀ sinceStr, chartArr [] sinceStr = [])) :=
  ⟨by decide, pagination_floor 0 10 (by decide)⟩

/-- Claim C8 (amended): every fetch failure of the table pipeline is
contained at the pipeline boundary: tools are reset to [], totalCount to
0, loading ends, and the rendered view is the error branch carrying the
stored message, never the rows branch; for a non-success status the
constructed message is the fixed string naming the tools resource of the
endpoint.  An exception message is surfaced as-is and need not embed the
endpoint name, see the counterexample. -/
theorem fetch_failure_contained (page rowsPerPage : Nat) (r : FetchResult)
    (h : r.isFailure = true) :
    (fetchData page rowsPerPage r).tools = []
    ∧ (fetchData page rowsPerPage r).total = 0
    ∧ (fetchData page rowsPerPage r).loading = false
    ∧ (∃ m, (fetchData page rowsPerPage r).tableError = some m
        ∧ renderTable (fetchData page rowsPerPage r) = TableView.errorV m)
    ∧ (r = FetchResult.httpError →
        (fetchData page rowsPerPage r).tableError = some "Failed to fetch tools"
        ∧ strContains "Failed to fetch tools" "tools" = true
        ∧ strContains endpoint "tools" = true) := by
  cases r with
  | ok d => simp [FetchResult.isFailure] at h
  | httpError =>
    exact ⟨rfl, rfl, rfl, ⟨"Failed to fetch tools", rfl, rfl⟩,
      fun _ => ⟨rfl, by decide, by decide⟩⟩
  | exn msg =>
    refine ⟨rfl, rfl, rfl,
      ⟨if msg = "" then "Error loading tools" else msg, rfl, rfl⟩, ?c⟩
    intro hc
    simp at hc

/-- Claim C8 witness: the non-success-status failure at page 1, pageSize
10 yields the contained error state with the fixed message. -/
theorem fetch_failure_contained_witness :
    FetchResult.isFailure FetchResult.httpError = true
    ∧ ((fetchData 1 10 FetchResult.httpError).tools = []
      ∧ (fetchData 1 10 FetchResult.httpError).total = 0
      ∧ (fetchData 1 10 FetchResult.httpError).loading = false
      ∧ (∃ m, (fetchData 1 10 FetchResult.httpError).tableError = some m
          ∧ renderTable (fetchData 1 10 FetchResult.httpError) = TableView.errorV m)
      ∧ (FetchResult.httpError = FetchResult.httpError →
          (fetchData 1 10 FetchResult.httpError).tableError = some "Failed to fetch tools"
          ∧ strContains "Failed to fetch tools" "tools" = true
          ∧ strContains endpoint "tools" = true)) :=
  ⟨by decide, fetch_failure_contained 1 10 FetchResult.httpError (by decide)⟩

/-- Claim C8 counterexample: a thrown network exception with message
NetworkError is surfaced verbatim as the user-visible error, and that
message embeds neither the endpoint path nor the tools resource name,
refuting the claim that every failure message embeds the endpoint name. -/
theorem fetch_failure_contained_cex :
    (fetchData 1 10 (FetchResult.exn "NetworkError")).tableError = some "NetworkError"
    ∧ strContains "NetworkError" "tools" = false
    ∧ strContains "NetworkError" "/api/similar-tools" = false := by
  refine ⟨rfl, ?a, ?b⟩
  · decide
  · decide

/-- Claim C9: selecting a new rows-per-page value resets the page index
to 1 in the same step, and page 1 is never out of range because totalPages
is at least 1 for every record count. -/
theorem rows_change_resets_page (s : TableControls) (v total : Nat) :
    (onRowsChange s v).page = 1
    ∧ (onRowsChange s v).page ≤ totalPages total (onRowsChange s v).rowsPerPage := by
  exact ⟨rfl, one_le_totalPages total v⟩

/-- Every single button press lands on a page index of at least 1 when the
totalPages value in effect is at least 1 and the current page is. -/
lemma pressButton_ge_one (tp p : Nat) (b : PageButton) (htp : 1 ≤ tp) (_hp : 1 ≤ p) :
    1 ≤ pressButton tp p b := by
  cases b <;> simp [pressButton] <;> omega

/-- Replaying presses whose totalPages values are all at least 1 from a
page index of at least 1 keeps the page index at least 1. -/
lemma runPresses_ge_one : ∀ (presses : List (PageButton × Nat)) (p : Nat), 1 ≤ p →
    (∀ q ∈ presses, 1 ≤ q.2) → 1 ≤ runPresses p presses := by
  intro presses
  induction presses with
  | nil => intro p hp _; exact hp
  | cons b bs ih =>
    intro p hp h
    have hb : 1 ≤ b.2 := h b (List.mem_cons_self b bs)
    exact ih _ (pressButton_ge_one b.2 p b.1 hb hp) fun q hq => h q (List.mem_cons_of_mem b hq)

/-- Claim C10: for every sequence of pagination button presses starting
from page 1, each paired with the totalPages value current at that press
(always at least 1), the page index is at least 1 after every step; and a
next or last press never sets the page index above the totalPages value
current at that press. -/
theorem press_invariants (presses : List (PageButton × Nat))
    (h : ∀ q ∈ presses, 1 ≤ q.2) :
    (∀ k, 1 ≤ runPresses 1 (presses.take k))
    ∧ (∀ tp p, pressButton tp p .next ≤ tp ∧ pressButton tp p .last ≤ tp) := by
  constructor
  · intro k
    exact runPresses_ge_one _ 1 le_rfl fun q hq => h q (List.take_subset k presses hq)
  · intro tp p
    exact ⟨min_le_left _ _, le_refl tp⟩

/-- Claim C10 witness: a concrete press sequence of next, last, prev with
totalPages 3 at each press. -/
theorem press_invariants_witness :
    (∀ q ∈ [(PageButton.next, 3), (PageButton.last, 3), (PageButton.prev, 3)], 1 ≤ q.2)
    ∧ ((∀ k, 1 ≤ runPresses 1
          ([(PageButton.next, 3), (PageButton.last, 3), (PageButton.prev, 3)].take k))
      ∧ (∀ tp p, pressButton tp p .next ≤ tp ∧ pressButton tp p .last ≤ tp)) :=
  ⟨by decide, press_invariants _ (by decide)⟩
